import Mathlib

/-!
Shallow embedding of the strategy-validation core of the ibkr-portfolio-bot
repository (src/features/indicators.py, scoring.py, correlation.py,
src/strategy/signals.py, selector.py, weighting.py, backtest.py,
walkforward.py, permutation.py), over exact rational arithmetic.

Conventions of the embedding:
* Python floats are modelled as `ℚ`; a NaN-valued float is `Option.none`.
* A pandas timestamp is modelled as `ℤ` (days).
* A per-symbol OHLCV DataFrame is a date-indexed list of `Bar`s; a dict is an
  insertion-ordered association list.
* The two numerics whose exact values are irrational in general — the rolling
  sample standard deviation used by `calculate_inverse_vol_weights` (a square
  root) and Pearson correlation entries of `DataFrame.corr()` — are supplied
  by a `NumOracle` parameter.  Universal theorems quantify over the oracle
  (so they cover the real-valued functions of the source); concrete runs
  instantiate it with `sample_stdev_last`, the exact-rational restriction of
  the source's `stdev(...).iloc[-1]`, and are only evaluated at inputs whose
  standard deviations are rational, so every traced value agrees with the
  source.
* A raised-and-uncaught Python exception is `Option.none` at the function
  boundary where the source's `try/except` handles it.
-/

abbrev Symb := String

/-- One OHLCV bar, matching the required columns of the source DataFrames. -/
structure Bar where
  open_ : ℚ
  high : ℚ
  low : ℚ
  close : ℚ
  volume : ℚ
deriving DecidableEq, Repr

/-- A single-symbol OHLCV DataFrame: date-indexed rows. -/
abbrev Frame := List (ℤ × Bar)

/-- Aligned returns DataFrame: `cols` are the column labels, `rows` the
date-indexed rows; `none` entries are NaN. -/
structure RetDF where
  cols : List Symb
  rows : List (ℤ × (Symb → Option ℚ))

/-- pandas `DataFrame.empty`: no rows or no columns. -/
def RetDF.isEmpty (R : RetDF) : Bool := R.rows.isEmpty || R.cols.isEmpty

/-- A correlation matrix as returned by `DataFrame.corr()`: square over
`syms`, entries possibly NaN (`none`). The empty matrix has `syms = []`. -/
structure CorrMat where
  syms : List Symb
  entry : Symb → Symb → Option ℚ

def CorrMat.emptyMat : CorrMat := ⟨[], fun _ _ => none⟩

/-- Oracle for the two irrational-valued numerics of the source:
`stdevLast w xs` models `stdev(Series(xs), w).iloc[-1]` (rolling sample
standard deviation, ddof=1, min_periods=1; `none` is NaN) and `corrEntry`
models the entries of `window_returns.corr()`. -/
structure NumOracle where
  stdevLast : ℕ → List ℚ → Option ℚ
  corrEntry : List (ℤ × (Symb → Option ℚ)) → Symb → Symb → Option ℚ

/-! ### Configuration (src/core/config.py, fields used by the core) -/

structure MACDConfig where
  enabled : Bool
  fast : ℕ
  slow : ℕ
  signal : ℕ

structure FeaturesConfig where
  atr_window : ℕ
  ema_fast : ℕ
  ema_slow : ℕ
  macd : MACDConfig

structure SelectionConfig where
  top_n : ℕ
  corr_window : ℕ
  corr_cap : ℚ
  min_score : ℚ

structure WeightsConfig where
  vol_window : ℕ
  max_weight_per_asset : ℚ
  cash_buffer : ℚ

structure CostsConfig where
  commission_per_share : ℚ
  slippage_bps : ℚ

structure AppConfig where
  features : FeaturesConfig
  selection : SelectionConfig
  weights : WeightsConfig
  costs : CostsConfig

/-! ### Indicator Library (src/features/indicators.py) -/

/-- Tail of the EMA recursion: `ema[i] = α·x[i] + (1-α)·ema[i-1]`. -/
def ema_rec (a : ℚ) (prev : ℚ) : List ℚ → List ℚ
  | [] => []
  | x :: xs =>
    let e := a * x + (1 - a) * prev
    e :: ema_rec a e xs

/-- `ema(series, window)` with `α = 2/(window+1)` and seed `series[0]`.
Callers guard `window ≤ 0` (the source raises there). -/
def ema (series : List ℚ) (window : ℕ) : List ℚ :=
  match series with
  | [] => []
  | x :: xs => x :: ema_rec (2 / ((window : ℚ) + 1)) x xs

/-- True ranges with `prev_close` threaded; the source initializes
`prev_close = close.iloc[0]`. -/
def true_ranges (prev : ℚ) : List Bar → List ℚ
  | [] => []
  | b :: bs =>
    max (b.high - b.low) (max |b.high - prev| |b.low - prev|) :: true_ranges b.close bs

/-- Wilder smoothing tail: `atr[i] = (atr[i-1]·(window-1) + tr[i]) / window`. -/
def wilder_rec (window : ℚ) (prev : ℚ) : List ℚ → List ℚ
  | [] => []
  | t :: ts =>
    let a := (prev * (window - 1) + t) / window
    a :: wilder_rec window a ts

/-- `atr(high, low, close, window)`; `atr[0] = tr[0]`. -/
def atr (bars : List Bar) (window : ℕ) : List ℚ :=
  match bars with
  | [] => []
  | b :: _ =>
    match true_ranges b.close bars with
    | [] => []
    | t0 :: rest => t0 :: wilder_rec (window : ℚ) t0 rest

/-- `macd(close, fast, slow, signal)`; `none` models the raised `ValueError`
for non-positive periods or `fast ≥ slow`. -/
def macd (close : List ℚ) (fast slow sig : ℕ) :
    Option (List ℚ × List ℚ × List ℚ) :=
  if fast = 0 ∨ slow = 0 ∨ sig = 0 then none
  else if fast ≥ slow then none
  else if close.isEmpty then some ([], [], [])
  else
    let macd_line := List.zipWith (fun a b => a - b) (ema close fast) (ema close slow)
    let signal_line := ema macd_line sig
    some (macd_line, signal_line, List.zipWith (fun a b => a - b) macd_line signal_line)

/-! ### Scoring (src/features/scoring.py) -/

/-- `calculate_score`: per-element
`((close/ema_fast) - 1) / max(atr/close, eps)`. -/
def calculate_score (close emaf atrv : List ℚ) (eps : ℚ) : List ℚ :=
  if close.isEmpty ∨ emaf.isEmpty ∨ atrv.isEmpty then []
  else (close.zip (emaf.zip atrv)).map
    (fun p => (p.1 / p.2.1 - 1) / max (p.2.2 / p.1) eps)

/-- `calculate_scores_for_dataframe`; `none` models the `ValueError` raised
by `ema`/`atr` on a zero window (all required OHLCV columns are present by
construction of `Bar`). -/
def calculate_scores_for_dataframe (df : Frame) (ema_fast_window atr_window : ℕ)
    (eps : ℚ) : Option (List ℚ) :=
  if df.isEmpty then some []
  else if ema_fast_window = 0 ∨ atr_window = 0 then none
  else
    let close := df.map (fun r => r.2.close)
    some (calculate_score close (ema close ema_fast_window)
      (atr (df.map Prod.snd) atr_window) eps)

/-! ### Signals (src/strategy/signals.py) -/

/-- `check_long_ok`: trend gate `ema_fast[-1] > ema_slow[-1]`, optionally AND
MACD-line `> 0`; the source skips the MACD gate when `macd_line is None`. -/
def check_long_ok (close emaf emas : List ℚ) (macd_line : Option (List ℚ))
    (macd_enabled : Bool) : Bool :=
  if close.isEmpty || emaf.isEmpty || emas.isEmpty then false
  else if ¬ (emaf.getLastD 0 > emas.getLastD 0) then false
  else if macd_enabled then
    match macd_line with
    | some ml => if ml.isEmpty then false else decide (ml.getLastD 0 > 0)
    | none => true
  else true

/-- `calculate_signals` on a single-symbol (non-MultiIndex) DataFrame: the
source sets `symbols = ["UNKNOWN"]` in that case and keys the result dict by
that literal.  A raised indicator exception is caught per symbol and yields
`False`. -/
def calculate_signals (df : Frame) (cfg : AppConfig) : List (Symb × Bool) :=
  if df.isEmpty then []
  else
    let close := df.map (fun r => r.2.close)
    if cfg.features.ema_fast = 0 ∨ cfg.features.ema_slow = 0 then [("UNKNOWN", false)]
    else
      let ef := ema close cfg.features.ema_fast
      let es := ema close cfg.features.ema_slow
      if cfg.features.macd.enabled then
        match macd close cfg.features.macd.fast cfg.features.macd.slow
            cfg.features.macd.signal with
        | none => [("UNKNOWN", false)]
        | some (ml, _, _) => [("UNKNOWN", check_long_ok close ef es (some ml) true)]
      else [("UNKNOWN", check_long_ok close ef es none false)]

/-! ### Correlation Engine (src/features/correlation.py) -/

/-- `get_correlation_matrix(returns, window, date)`: empty when the frame is
empty or fewer than `window` observations remain up to `date`; otherwise the
Pearson matrix (oracle) of the trailing `window` rows. -/
def get_correlation_matrix (O : NumOracle) (returns : RetDF) (window : ℕ)
    (date : Option ℤ) : CorrMat :=
  if returns.isEmpty then CorrMat.emptyMat
  else
    match date with
    | some t =>
      let subset := returns.rows.filter (fun r => r.1 ≤ t)
      if subset.length < window then CorrMat.emptyMat
      else
        let wr := subset.drop (subset.length - window)
        if wr.length < window then CorrMat.emptyMat
        else ⟨returns.cols, O.corrEntry wr⟩
    | none =>
      let wr := returns.rows.drop (returns.rows.length - window)
      if wr.length < window then CorrMat.emptyMat
      else ⟨returns.cols, O.corrEntry wr⟩

/-- Correlation lookup of `apply_correlation_cap`: the matrix entry when both
symbols are present, else an assumed correlation of `0.0`. -/
def cc_lookup (M : CorrMat) (a b : Symb) : Option ℚ :=
  if a ∈ M.syms ∧ b ∈ M.syms then M.entry a b else some 0

/-- Rejection test `abs(corr) > corr_cap`; a NaN entry compares `False`. -/
def cc_reject (M : CorrMat) (cap : ℚ) (a b : Symb) : Bool :=
  match cc_lookup M a b with
  | some q => decide (|q| > cap)
  | none => false

/-- One step of the greedy admission loop. -/
def cc_step (M : CorrMat) (cap : ℚ) (sel : List Symb) (symbol : Symb) : List Symb :=
  if sel.all (fun s => ! cc_reject M cap symbol s) then sel ++ [symbol] else sel

/-- `apply_correlation_cap(symbols, scores, corr_matrix, corr_cap)`: greedy
selection; on an empty matrix the top candidate alone is returned.  The
`scores` argument is used by the source only for logging. -/
def apply_correlation_cap (symbols : List Symb) (scores : List (Symb × ℚ))
    (M : CorrMat) (cap : ℚ) : List Symb :=
  match symbols with
  | [] => []
  | s0 :: _ =>
    if M.syms.isEmpty then [s0]
    else symbols.foldl (cc_step M cap) []

/-- Stable descending insertion, matching Python's stable
`sorted(..., key=score, reverse=True)`. -/
def insert_desc (x : Symb × ℚ) : List (Symb × ℚ) → List (Symb × ℚ)
  | [] => [x]
  | y :: ys => if y.2 > x.2 then y :: insert_desc x ys else x :: y :: ys

/-- Stable sort of the `(symbol, score)` items by score descending. -/
def sort_scores_desc : List (Symb × ℚ) → List (Symb × ℚ)
  | [] => []
  | x :: xs => insert_desc x (sort_scores_desc xs)

/-- `select_with_correlation_cap(scores, returns, top_n, corr_window,
corr_cap, date)`. -/
def select_with_correlation_cap (O : NumOracle) (scores : List (Symb × ℚ))
    (returns : RetDF) (top_n corr_window : ℕ) (corr_cap : ℚ)
    (date : Option ℤ) : List Symb :=
  if scores.isEmpty then []
  else
    let symbol_list := (sort_scores_desc scores).map Prod.fst
    let candidates := symbol_list.take (min symbol_list.length (top_n * 3))
    let M := get_correlation_matrix O returns corr_window date
    if M.syms.isEmpty then symbol_list.take top_n
    else (apply_correlation_cap candidates scores M corr_cap).take top_n

/-! ### Weighting (src/strategy/weighting.py) -/

/-- Per-symbol body of the `calculate_inverse_vol_weights` loop: `none` when
the symbol is skipped (missing column, fewer than `vol_window` observations
after `dropna`, or non-positive/NaN volatility); otherwise the symbol with
its inverse volatility `1/vol`. -/
def inverse_vol_entry (O : NumOracle) (returns : RetDF) (vol_window : ℕ)
    (symbol : Symb) : Option (Symb × ℚ) :=
  if symbol ∈ returns.cols then
    let sr := returns.rows.filterMap (fun r => r.2 symbol)
    if sr.length < vol_window then none
    else
      match O.stdevLast vol_window sr with
      | none => none
      | some vol => if vol ≤ 0 then none else some (symbol, 1 / vol)
  else none

/-- `calculate_inverse_vol_weights(selected_symbols, returns, vol_window)`. -/
def calculate_inverse_vol_weights (O : NumOracle) (selected_symbols : List Symb)
    (returns : RetDF) (vol_window : ℕ) : List (Symb × ℚ) :=
  if selected_symbols.isEmpty then []
  else
    let inv_vols := selected_symbols.filterMap (inverse_vol_entry O returns vol_window)
    if inv_vols.isEmpty then []
    else
      let total_inv_vol := (inv_vols.map Prod.snd).sum
      if total_inv_vol = 0 then []
      else inv_vols.map (fun p => (p.1, p.2 / total_inv_vol))

/-- `apply_weight_caps(weights, max_weight_per_asset)`: clip, redistribute the
excess proportionally over the still-uncapped symbols in a single pass, then
renormalize to sum 1 when the total is positive. -/
def apply_weight_caps (weights : List (Symb × ℚ)) (max_weight_per_asset : ℚ) :
    List (Symb × ℚ) :=
  if weights.isEmpty then []
  else
    let capped := weights.map
      (fun p => if p.2 > max_weight_per_asset then (p.1, max_weight_per_asset) else p)
    let excess := (weights.filterMap
      (fun p => if p.2 > max_weight_per_asset then some (p.2 - max_weight_per_asset)
                else none)).sum
    let redistributed :=
      if excess > 0 then
        let uncapped := capped.filter (fun p => p.2 < max_weight_per_asset)
        if ¬ uncapped.isEmpty then
          let total_uncapped := (uncapped.map Prod.snd).sum
          if total_uncapped > 0 then
            capped.map (fun p =>
              if p.2 < max_weight_per_asset then
                (p.1, p.2 + excess * (p.2 / total_uncapped))
              else p)
          else capped
        else capped
      else capped
    let total := (redistributed.map Prod.snd).sum
    if total > 0 then redistributed.map (fun p => (p.1, p.2 / total))
    else redistributed

/-- `apply_cash_buffer(weights, cash_buffer)`: scale by `1 - cash_buffer`. -/
def apply_cash_buffer (weights : List (Symb × ℚ)) (cash_buffer : ℚ) :
    List (Symb × ℚ) :=
  if weights.isEmpty then []
  else weights.map (fun p => (p.1, p.2 * (1 - cash_buffer)))

/-- `calculate_weights(selected_symbols, returns, config)`: inverse-vol, caps,
cash buffer, and the final renormalization guard. -/
def calculate_weights (O : NumOracle) (selected_symbols : List Symb)
    (returns : RetDF) (cfg : AppConfig) : List (Symb × ℚ) :=
  if selected_symbols.isEmpty then []
  else
    let w1 := calculate_inverse_vol_weights O selected_symbols returns
      cfg.weights.vol_window
    if w1.isEmpty then []
    else
      let w2 := apply_weight_caps w1 cfg.weights.max_weight_per_asset
      let w3 := apply_cash_buffer w2 cfg.weights.cash_buffer
      let total_weight := (w3.map Prod.snd).sum
      let expected_total := 1 - cfg.weights.cash_buffer
      if |total_weight - expected_total| > 1/100 then
        if total_weight > 0 then
          w3.map (fun p => (p.1, p.2 / total_weight * expected_total))
        else w3
      else w3

/-! ### Selector (src/strategy/selector.py) -/

/-- Accumulator step of the `select_assets` scoring loop: appends the
symbol's latest score (when it clears `min_score`) and its `long_ok` signal
looked up by the SYMBOL name in the dict returned by `calculate_signals`
(which, for the single-symbol frames supplied by the backtest, is keyed by
the literal `"UNKNOWN"`). -/
def select_assets_scan (cfg : AppConfig) (date : Option ℤ)
    (acc : List (Symb × ℚ) × List (Symb × Bool)) (p : Symb × Frame) :
    List (Symb × ℚ) × List (Symb × Bool) :=
  if p.2.isEmpty then acc
  else
    let df := match date with
      | some t => p.2.filter (fun r => r.1 ≤ t)
      | none => p.2
    if df.isEmpty then acc
    else
      match calculate_scores_for_dataframe df cfg.features.ema_fast
          cfg.features.atr_window (1/1000000) with
      | none => acc
      | some scores_list =>
        if scores_list.isEmpty then acc
        else
          let latest_score := scores_list.getLastD 0
          if latest_score < cfg.selection.min_score then acc
          else
            let signals := calculate_signals df cfg
            (acc.1 ++ [(p.1, latest_score)],
             acc.2 ++ [(p.1, (signals.lookup p.1).getD false)])

/-- `select_assets(data, returns, config, date)`. -/
def select_assets (O : NumOracle) (data : List (Symb × Frame)) (returns : RetDF)
    (cfg : AppConfig) (date : Option ℤ) : List Symb :=
  if data.isEmpty then []
  else
    let sc := data.foldl (select_assets_scan cfg date) ([], [])
    let long_ok_scores := sc.1.filter (fun p => ((sc.2).lookup p.1).getD false)
    if long_ok_scores.isEmpty then []
    else select_with_correlation_cap O long_ok_scores returns cfg.selection.top_n
      cfg.selection.corr_window cfg.selection.corr_cap date

/-! ### Backtest Simulator (src/strategy/backtest.py) -/

/-- Sorted-set insertion used to build the union of all frame dates. -/
def insertUnique (d : ℤ) : List ℤ → List ℤ
  | [] => [d]
  | x :: xs => if d < x then d :: x :: xs else if d = x then x :: xs else x :: insertUnique d xs

/-- `sorted(set(...))` over a list of dates. -/
def sortedUnion (l : List ℤ) : List ℤ :=
  l.foldl (fun acc d => insertUnique d acc) []

/-- Walk of a frame carrying the previous close, for `pct_change`. -/
def pct_change_walk (prev : Option ℚ) : Frame → ℤ → Option ℚ
  | [], _ => none
  | (d0, b) :: rest, d =>
    if d0 = d then
      match prev with
      | none => none
      | some pc => some (b.close / pc - 1)
    else pct_change_walk (some b.close) rest d

/-- `Series.pct_change()` value of a frame at one date: `none` when the date
is absent from the frame's index or is its first row (pandas NaN). -/
def pct_change_at (frame : Frame) (d : ℤ) : Option ℚ :=
  pct_change_walk none frame d

/-- Equity curve: `equity[i] = equity[i-1] * (1 + net[i])`, `equity` built by
`(1 + net).cumprod()`. -/
def cumprod_one_plus (accp : ℚ) : List ℚ → List ℚ
  | [] => []
  | r :: rs =>
    let e := accp * (1 + r)
    e :: cumprod_one_plus e rs

/-- Outputs of `run_backtest` (the keys of its result dict that the claims
refer to), each list indexed like `all_dates`. -/
structure BTResult where
  dates : List ℤ
  cols : List Symb
  weights_history : List (List (Symb × ℚ))
  portfolio_returns : List ℚ
  turnover : List ℚ
  costs : List ℚ
  net_returns : List ℚ
  equity : List ℚ

/-- `run_backtest(data, config, start_date, end_date)`; `none` models the
early `return {}` branches.  Positions row `j` holds the weights computed at
date `j-1` (written to the NEXT bar inside the rebalance loop); the
portfolio-return loop then reads the positions of the PREVIOUS row, and
`calculate_weights` is called with the full-period `returns` frame. -/
def run_backtest (O : NumOracle) (data : List (Symb × Frame)) (cfg : AppConfig)
    (start_date end_date : Option ℤ) : Option BTResult :=
  if data.isEmpty then none
  else
    let all_dates0 := sortedUnion ((data.map (fun p => p.2.map Prod.fst)).flatten)
    if all_dates0.isEmpty then none
    else
      let all_dates1 := match start_date with
        | some s => all_dates0.filter (fun d => d ≥ s)
        | none => all_dates0
      let all_dates := match end_date with
        | some e => all_dates1.filter (fun d => d ≤ e)
        | none => all_dates1
      if all_dates.isEmpty then none
      else
        let ret_syms := (data.filter (fun p => ! p.2.isEmpty)).map Prod.fst
        if ret_syms.isEmpty then none
        else
          let retQ : ℤ → Symb → ℚ := fun d s =>
            match data.lookup s with
            | none => 0
            | some frame => (pct_change_at frame d).getD 0
          let returns : RetDF :=
            ⟨ret_syms, all_dates.map (fun d => (d, fun s => some (retQ d s)))⟩
          let n := all_dates.length
          let weights_history := (List.range n).map (fun i =>
            if i = 0 then []
            else
              let date := all_dates.getD i 0
              let date_data := data.filterMap (fun p =>
                if p.2.isEmpty then none
                else
                  let fdf := p.2.filter (fun r => r.1 ≤ date)
                  if fdf.isEmpty then none else some (p.1, fdf))
              if date_data.isEmpty then []
              else
                let selected := select_assets O date_data returns cfg (some date)
                if selected.isEmpty then []
                else calculate_weights O selected returns cfg)
          let posAt : ℕ → Symb → ℚ := fun j s =>
            if j = 0 then 0
            else if s ∈ ret_syms then ((weights_history.getD (j-1) []).lookup s).getD 0
            else 0
          let portfolio_returns := (List.range n).map (fun i =>
            if i = 0 then 0
            else (ret_syms.map (fun s =>
              posAt (i-1) s * retQ (all_dates.getD i 0) s)).sum)
          let turnover := (List.range n).map (fun i =>
            if i = 0 then 0
            else
              let pw := weights_history.getD (i-1) []
              let cw := weights_history.getD i []
              let syms := (pw.map Prod.fst ++ cw.map Prod.fst).dedup
              (syms.map (fun s =>
                |(cw.lookup s).getD 0 - (pw.lookup s).getD 0|)).sum)
          let costs := turnover.map (fun t =>
            t * cfg.costs.commission_per_share + t * (cfg.costs.slippage_bps / 10000))
          let net_returns := List.zipWith (fun p c => p - c) portfolio_returns costs
          some ⟨all_dates, ret_syms, weights_history, portfolio_returns, turnover,
            costs, net_returns, cumprod_one_plus 1 net_returns⟩

/-! ### Walk-Forward windowing (src/strategy/walkforward.py) -/

/-- Body of the `while current_date < end_date` loop of
`generate_walkforward_windows`, with explicit fuel (the source's loop
terminates for `train_years ≥ 1` since `current_date` advances by
`365·train_years` days per iteration). -/
def genWindows (ty om : ℕ) (endD : ℤ) : ℕ → ℤ → List (ℤ × ℤ × ℤ × ℤ)
  | 0, _ => []
  | fuel + 1, current =>
    if current < endD then
      let train_start := current
      let train_end := train_start + 365 * (ty : ℤ)
      if train_end > endD then []
      else
        let oos_start := train_end
        let oos_end0 := oos_start + 30 * (om : ℤ)
        let oos_end := if oos_end0 > endD then endD else oos_end0
        if oos_start ≥ oos_end then []
        else (train_start, train_end, oos_start, oos_end) ::
          genWindows ty om endD fuel oos_start
    else []

/-- `generate_walkforward_windows(start_date, end_date, train_years,
oos_months)` over integer day counts. -/
def generate_walkforward_windows (start_date end_date : ℤ) (ty om : ℕ) :
    List (ℤ × ℤ × ℤ × ℤ) :=
  genWindows ty om end_date ((end_date - start_date).toNat + 1) start_date

/-! ### Permutation Tester (src/strategy/permutation.py) -/

/-- Result dict of `run_permutation_test`; in the early-return branches the
source omits `valid_runs` (modelled as 0) and `permuted_scores` is empty. -/
structure PermResult where
  p_value : Option ℚ
  real_score : Option ℚ
  permuted_scores : List ℚ
  valid_runs : ℕ

/-- `run_permutation_test(data, returns, config, train_start, train_end,
runs, seed)`.  `gridScore td R` abstracts `grid_search(td, R, config,
train_start, train_end)`: `none` when it reports `params is None`, otherwise
its best score.  `permute_rows run R` abstracts
`permute_returns_joint(R, seed + run)`, the seeded joint row shuffle. -/
def run_permutation_test
    (gridScore : List (Symb × Frame) → RetDF → Option ℚ)
    (permute_rows : ℕ → RetDF → RetDF)
    (data : List (Symb × Frame)) (returns : RetDF)
    (train_start train_end : ℤ) (runs : ℕ) : PermResult :=
  let train_data := data.filterMap (fun p =>
    let tdf := p.2.filter (fun r => train_start ≤ r.1 ∧ r.1 < train_end)
    if tdf.isEmpty then none else some (p.1, tdf))
  let train_returns : RetDF :=
    ⟨returns.cols, returns.rows.filter (fun r => train_start ≤ r.1 ∧ r.1 < train_end)⟩
  if train_data.isEmpty ∨ train_returns.isEmpty then ⟨none, none, [], 0⟩
  else
    match gridScore train_data train_returns with
    | none => ⟨none, none, [], 0⟩
    | some real_score =>
      let permuted_scores := (List.range runs).filterMap
        (fun run => gridScore train_data (permute_rows run train_returns))
      if permuted_scores.isEmpty then ⟨none, some real_score, [], 0⟩
      else
        ⟨some ((permuted_scores.countP (fun s => s ≥ real_score) : ℚ) /
            (permuted_scores.length : ℚ)),
          some real_score, permuted_scores, permuted_scores.length⟩

/-! ### Concrete oracle instantiation -/

/-- Newton iteration for the integer square root, on explicit fuel (64 steps
suffice for every argument below `2^64`). -/
def isqrtGo (n : ℕ) : ℕ → ℕ → ℕ
  | 0, g => g
  | f + 1, g =>
    let g2 := (g + n / g) / 2
    if g2 < g then isqrtGo n f g2 else g

/-- Integer square root by Newton iteration (fuel-bounded, structural). -/
def isqrt (n : ℕ) : ℕ :=
  if n ≤ 1 then n else isqrtGo n 64 n

/-- Exact rational square root: `some r` with `r*r = q` and `0 ≤ r` when the
candidate check succeeds, else `none`. -/
def ratSqrt (q : ℚ) : Option ℚ :=
  if q < 0 then none
  else
    let ns := isqrt q.num.toNat
    let ds := isqrt q.den
    if ns * ns = q.num.toNat ∧ ds * ds = q.den then some ((ns : ℚ) / (ds : ℚ))
    else none

/-- Exact-rational restriction of the source's
`stdev(series, window).iloc[-1]`: the sample standard deviation (ddof=1) of
the trailing `min(window, len)` values, NaN (`none`) below two observations,
and `none` also where the true standard deviation is irrational.  Concrete
runs in this file only evaluate it at inputs whose standard deviation is
rational, where it coincides with the source. -/
def sample_stdev_last (window : ℕ) (xs : List ℚ) : Option ℚ :=
  let tail := xs.drop (xs.length - window)
  if tail.length < 2 then none
  else
    let n : ℚ := (tail.length : ℚ)
    let m := tail.sum / n
    ratSqrt (((tail.map (fun x => (x - m) ^ 2)).sum) / (n - 1))

/-- Oracle used for the concrete runs: exact-rational standard deviation; the
correlation entry is never consulted in those runs (their correlation
matrices are empty for lack of history). -/
def oracleQ : NumOracle := ⟨sample_stdev_last, fun _ _ _ => none⟩

/-! ### Concrete inputs used by the counterexample and code-bug runs -/

/-- A flat bar (open = high = low = close), so every true range is zero. -/
def barOf (c : ℚ) : Bar := ⟨c, c, c, c, 0⟩

/-- Config of the backtest runs: `ema_fast=1`, `ema_slow=2`, `atr_window=1`,
`top_n=1`, `corr_window=90`, `corr_cap=0.7`, `min_score=0`, `vol_window=4`,
`max_weight_per_asset=0.5`, `cash_buffer=0.05`, and the default costs
(`commission_per_share=0.0035`, `slippage_bps=1`). -/
def cfgBT : AppConfig :=
  ⟨⟨1, 1, 2, ⟨false, 12, 26, 9⟩⟩, ⟨1, 90, 7/10, 0⟩, ⟨4, 1/2, 1/20⟩, ⟨7/2000, 1⟩⟩

/-- Same config with `vol_window = 3` (used by the selector run, which never
reaches the weighting stage). -/
def cfgSel : AppConfig :=
  ⟨⟨1, 1, 2, ⟨false, 12, 26, 9⟩⟩, ⟨1, 90, 7/10, 0⟩, ⟨3, 1/2, 1/20⟩, ⟨7/2000, 1⟩⟩

/-- Seven flat-topped rising bars; the last four returns are 0,0,0,0 so the
full-period trailing volatility is zero. -/
def frameA : Frame :=
  [(0, barOf 1), (1, barOf 2), (2, barOf 4), (3, barOf 4), (4, barOf 4),
   (5, barOf 4), (6, barOf 4)]

/-- `frameA` with only the final bar (date 6) changed: its close drops to 2,
making the last four returns 0,0,0,-1/2 with sample standard deviation 1/4. -/
def frameB : Frame :=
  [(0, barOf 1), (1, barOf 2), (2, barOf 4), (3, barOf 4), (4, barOf 4),
   (5, barOf 4), (6, barOf 2)]

/-- Three rising bars: EMA(1) = close = 4 at the last bar, EMA(2) = 29/9. -/
def frameSpy : Frame := [(0, barOf 1), (1, barOf 2), (2, barOf 4)]

/-- A three-row returns frame (too short for the 90-day correlation window). -/
def retR3 : RetDF :=
  ⟨["SPY"], [(0, fun _ => some 0), (1, fun _ => some 0), (2, fun _ => some 0)]⟩

/-- Returns whose column A is `[-1/100, 0, 1/100]`: its 3-observation sample
standard deviation is exactly 1/100. -/
def retR6 : RetDF :=
  ⟨["A"], [(0, fun _ => some (-1/100)), (1, fun _ => some 0),
    (2, fun _ => some (1/100))]⟩

/-- `cfgSel` with `max_weight_per_asset = 0` (pydantic imposes no positivity
constraint on the field). -/
def cfg6 : AppConfig :=
  ⟨⟨1, 1, 2, ⟨false, 12, 26, 9⟩⟩, ⟨1, 90, 7/10, 0⟩, ⟨3, 0, 1/20⟩, ⟨7/2000, 1⟩⟩

/-- `cfgSel` again but under the name used by the C6 witness run (cap 1/2). -/
def cfg6b : AppConfig :=
  ⟨⟨1, 1, 2, ⟨false, 12, 26, 9⟩⟩, ⟨1, 90, 7/10, 0⟩, ⟨3, 1/2, 1/20⟩, ⟨7/2000, 1⟩⟩

/-- The correlation matrix of the spec scenario: corr(A,B)=0.95,
corr(A,C)=0.2, corr(B,C)=0.3, diagonal 1. -/
def mCx : CorrMat := ⟨["A", "B", "C"], fun a b =>
  if a = b then some 1
  else if (a = "A" ∧ b = "B") ∨ (a = "B" ∧ b = "A") then some (95/100)
  else if (a = "A" ∧ b = "C") ∨ (a = "C" ∧ b = "A") then some (2/10)
  else if (a = "B" ∧ b = "C") ∨ (a = "C" ∧ b = "B") then some (3/10)
  else none⟩

/-- A returns frame with two columns and no rows at all. -/
def retRcx : RetDF := ⟨["A", "B"], []⟩

/-- Degenerate grid-search stub for the permutation-test witness: every grid
search succeeds with best score 0. -/
def gsW : List (Symb × Frame) → RetDF → Option ℚ := fun _ _ => some 0

/-- Identity row permutation for the permutation-test witness. -/
def pmW : ℕ → RetDF → RetDF := fun _ R => R

/-- One-bar data set for the permutation-test witness. -/
def dataW : List (Symb × Frame) := [("A", [(0, barOf 1)])]

/-- One-row returns frame for the permutation-test witness. -/
def retRW : RetDF := ⟨["A"], [(0, fun _ => some 0)]⟩

/-- Spec-side survival predicate of the inverse-volatility stage (the claim's
wording): the symbol has a returns column, at least `vol_window` observations
after `dropna`, and a defined positive volatility. -/
def survives_spec (O : NumOracle) (R : RetDF) (vw : ℕ) (s : Symb) : Prop :=
  s ∈ R.cols ∧ vw ≤ (R.rows.filterMap (fun r => r.2 s)).length ∧
    ∃ v, O.stdevLast vw (R.rows.filterMap (fun r => r.2 s)) = some v ∧ 0 < v

/-! ### Helper lemmas -/

lemma list_sum_map_div (l : List ℚ) (c : ℚ) :
    (l.map (fun x => x / c)).sum = l.sum / c := by
  induction l with
  | nil => simp
  | cons x xs ih => simp [ih, div_add_div_same]

lemma sum_snd_map_div (l : List (Symb × ℚ)) (t : ℚ) :
    ((l.map (fun p => (p.1, p.2 / t))).map Prod.snd).sum
      = ((l.map Prod.snd).sum) / t := by
  induction l with
  | nil => simp
  | cons x xs ih =>
    simp only [List.map_cons, List.sum_cons, ih]
    rw [div_add_div_same]

lemma sum_snd_map_mul (l : List (Symb × ℚ)) (c : ℚ) :
    ((l.map (fun p => (p.1, p.2 * c))).map Prod.snd).sum
      = ((l.map Prod.snd).sum) * c := by
  induction l with
  | nil => simp
  | cons x xs ih =>
    simp only [List.map_cons, List.sum_cons, ih]
    ring

lemma sum_snd_redistribute (l : List (Symb × ℚ)) (cap excess tu : ℚ) :
    ((l.map (fun p => if p.2 < cap then (p.1, p.2 + excess * (p.2 / tu)) else p)).map
        Prod.snd).sum
      = (l.map Prod.snd).sum
        + excess * (((l.filter (fun p => p.2 < cap)).map Prod.snd).sum / tu) := by
  induction l with
  | nil => simp
  | cons x xs ih =>
    by_cases h : x.2 < cap
    · simp only [List.map_cons, List.sum_cons, List.filter_cons, if_pos h,
        if_pos (decide_eq_true h), ih]
      ring
    · simp only [List.map_cons, List.sum_cons, List.filter_cons, if_neg h,
        if_neg (fun hc => h (of_decide_eq_true hc)), ih]
      ring

/-! ### Claim theorems -/

set_option maxRecDepth 100000 in
/-- Claim C1 (code bug): `run_backtest` is not free of look-ahead.  The data
sets `frameA` and `frameB` for the symbol `"UNKNOWN"` have identical bars up
to and including date 2 (indeed up to date 5) and differ only at date 6; yet
the weights recorded at date 2 and the turnover at date 1 differ between the
two runs, because `calculate_weights` is invoked with the full-period
returns frame, so the trailing volatility used at every rebalance date is
taken from the end of the whole backtest window (zero in `frameA`, `1/4` in
`frameB`). -/
theorem run_backtest_lookahead_bug :
    frameA.filter (fun r => r.1 ≤ 2) = frameB.filter (fun r => r.1 ≤ 2) ∧
    (run_backtest oracleQ [("UNKNOWN", frameA)] cfgBT none none).map
        (fun r => r.dates.getD 2 0) = some 2 ∧
    (run_backtest oracleQ [("UNKNOWN", frameA)] cfgBT none none).map
        (fun r => r.weights_history.getD 2 []) = some [] ∧
    (run_backtest oracleQ [("UNKNOWN", frameB)] cfgBT none none).map
        (fun r => r.weights_history.getD 2 []) = some [("UNKNOWN", 19/20)] ∧
    (run_backtest oracleQ [("UNKNOWN", frameA)] cfgBT none none).map
        (fun r => r.turnover.getD 1 0) = some 0 ∧
    (run_backtest oracleQ [("UNKNOWN", frameB)] cfgBT none none).map
        (fun r => r.turnover.getD 1 0) = some (19/20) := by
  refine ⟨?_, ?_, ?_, ?_, ?_, ?_⟩ <;>
    exact of_decide_eq_true (by with_unfolding_all rfl)

set_option maxRecDepth 100000 in
/-- Claim C2 (code bug): the realized lag is two bars, not one.  In the
`frameB` run the weights computed at date 1 are `{UNKNOWN: 19/20}`, the
return at date 2 is `1`, and the turnover (hence cost) at date 2 is `0`; the
claim would give net return `19/20 · 1 - 0 ≠ 0` at date 2, but `run_backtest`
produces `0` there: weights are written into the positions of the NEXT bar
and the portfolio-return loop then reads the positions of the PREVIOUS bar
again, so the return at `t` is realized with the weights computed at `t-2`. -/
theorem run_backtest_double_lag_bug :
    (run_backtest oracleQ [("UNKNOWN", frameB)] cfgBT none none).map
        (fun r => r.weights_history.getD 1 []) = some [("UNKNOWN", 19/20)] ∧
    pct_change_at frameB 2 = some 1 ∧
    (run_backtest oracleQ [("UNKNOWN", frameB)] cfgBT none none).map
        (fun r => r.turnover.getD 2 0) = some 0 ∧
    (run_backtest oracleQ [("UNKNOWN", frameB)] cfgBT none none).map
        (fun r => r.costs.getD 2 0) = some 0 ∧
    (run_backtest oracleQ [("UNKNOWN", frameB)] cfgBT none none).map
        (fun r => r.net_returns.getD 2 0) = some 0 ∧
    (19/20 : ℚ) * 1 - 0 ≠ 0 := by
  refine ⟨?_, ?_, ?_, ?_, ?_, ?_⟩ <;>
    exact of_decide_eq_true (by with_unfolding_all rfl)

set_option maxRecDepth 100000 in
/-- Claim C3 (code bug): the long gate never admits a symbol under its real
name.  For `frameSpy` the trend gate holds (`EMA_1 = 4 > EMA_2 = 29/9`) and
the latest score `0` meets `min_score = 0`, yet `select_assets` returns the
empty selection, because `calculate_signals` keys the single-symbol signal
dict by the literal `"UNKNOWN"` while `select_assets` looks it up by the
actual symbol name; renaming the symbol to `"UNKNOWN"` makes the very same
data pass. -/
theorem select_assets_gate_lookup_bug :
    select_assets oracleQ [("SPY", frameSpy)] retR3 cfgSel none = [] ∧
    (ema (frameSpy.map (fun r => r.2.close)) cfgSel.features.ema_fast).getLastD 0
      > (ema (frameSpy.map (fun r => r.2.close)) cfgSel.features.ema_slow).getLastD 0 ∧
    ((calculate_scores_for_dataframe frameSpy cfgSel.features.ema_fast
        cfgSel.features.atr_window (1/1000000)).getD []).getLastD 0
      ≥ cfgSel.selection.min_score ∧
    calculate_signals frameSpy cfgSel = [("UNKNOWN", true)] ∧
    select_assets oracleQ [("UNKNOWN", frameSpy)] retR3 cfgSel none = ["UNKNOWN"] := by
  refine ⟨?_, ?_, ?_, ?_, ?_⟩ <;>
    exact of_decide_eq_true (by with_unfolding_all rfl)

set_option maxRecDepth 40000 in
/-- Claim C5, counterexample: with input weights `{A: 0.8, B: 0.15, C: 0.05}`
and `max_weight_per_asset = 1/4 ∈ (0, 1]`, the single-pass redistribution of
`apply_weight_caps` pushes B to `9/16 = 0.5625`, far above
`max_weight_per_asset + 0.01 = 0.26`. -/
theorem apply_weight_caps_cap_violation :
    (apply_weight_caps [("A", 4/5), ("B", 3/20), ("C", 1/20)] (1/4)).lookup "B"
      = some (9/16) ∧
    (0 : ℚ) < 1/4 ∧ (1/4 : ℚ) ≤ 1 ∧ ¬ ((9/16 : ℚ) ≤ 1/4 + 1/100) := by
  refine ⟨?_, ?_, ?_, ?_⟩ <;>
    exact of_decide_eq_true (by with_unfolding_all rfl)

set_option maxRecDepth 40000 in
/-- Claim C6, counterexample: with `max_weight_per_asset = 0` (the config
type imposes no positivity), the selected symbol `A` survives the
inverse-volatility stage (volatility exactly 1/100), yet `calculate_weights`
returns the non-empty mapping `{A: 0}` whose total `0` is not within `0.01`
of `1 - cash_buffer = 0.95`: the zero cap clips the weight to `0` and every
renormalization guard is skipped because the total is not positive. -/
theorem calculate_weights_zero_cap_violation :
    calculate_weights oracleQ ["A"] retR6 cfg6 = [("A", 0)] ∧
    calculate_weights oracleQ ["A"] retR6 cfg6 ≠ [] ∧
    ¬ (|((calculate_weights oracleQ ["A"] retR6 cfg6).map Prod.snd).sum
        - (1 - cfg6.weights.cash_buffer)| ≤ 1/100) := by
  refine ⟨?_, ?_, ?_⟩ <;>
    exact of_decide_eq_true (by with_unfolding_all rfl)

set_option maxRecDepth 40000 in
/-- Claim C8, counterexample: with scores `{A: 1, B: 0.9}`, `top_n = 2` and
no returns history (so the correlation matrix is empty),
`select_with_correlation_cap` returns BOTH symbols `[A, B]`, not the single
top-scoring symbol `[A]` — the fallback is `symbol_list[:top_n]`. -/
theorem select_with_correlation_cap_fallback_not_single :
    select_with_correlation_cap oracleQ [("A", 1), ("B", 9/10)] retRcx 2 90
        (7/10) (some 0) = ["A", "B"] ∧
    select_with_correlation_cap oracleQ [("A", 1), ("B", 9/10)] retRcx 2 90
        (7/10) (some 0) ≠ ["A"] := by
  refine ⟨?_, ?_⟩ <;>
    exact of_decide_eq_true (by with_unfolding_all rfl)

/-- Claim C9, counterexample: with `train_years = 1` and `oos_months = 13`
over the span `[0, 1200]`, the first window's OOS range `[365, 755]` overlaps
the second window's OOS range `[730, 1120]`: consecutive OOS starts advance
by `365·train_years` days, which is less than `30·oos_months` days here. -/
theorem generate_walkforward_windows_oos_overlap :
    generate_walkforward_windows 0 1200 1 13
      = [(0, 365, 365, 755), (365, 730, 730, 1120), (730, 1095, 1095, 1200)] ∧
    ((generate_walkforward_windows 0 1200 1 13).getD 1 (0,0,0,0)).2.2.1
      < ((generate_walkforward_windows 0 1200 1 13).getD 0 (0,0,0,0)).2.2.2 := by
  decide

/-- Claim C4: `run_permutation_test` reports `p_value = None` exactly in the
runs with zero valid permutation scores (no training data, failed real grid
search, or no permuted run with valid parameters), and otherwise reports
`p_value = (count of permuted scores ≥ real_score) / valid_runs ∈ [0, 1]`. -/
theorem run_permutation_test_p_value
    (gs : List (Symb × Frame) → RetDF → Option ℚ) (pm : ℕ → RetDF → RetDF)
    (data : List (Symb × Frame)) (returns : RetDF) (ts te : ℤ) (runs : ℕ) :
    ((run_permutation_test gs pm data returns ts te runs).valid_runs = 0 →
      (run_permutation_test gs pm data returns ts te runs).p_value = none) ∧
    ((run_permutation_test gs pm data returns ts te runs).valid_runs ≠ 0 →
      ∃ r q, (run_permutation_test gs pm data returns ts te runs).real_score = some r ∧
        (run_permutation_test gs pm data returns ts te runs).p_value = some q ∧
        q = (((run_permutation_test gs pm data returns ts te runs).permuted_scores.countP
              (fun x => x ≥ r) : ℕ) : ℚ)
            / (((run_permutation_test gs pm data returns ts te runs).valid_runs : ℕ) : ℚ) ∧
        0 ≤ q ∧ q ≤ 1) := by
  simp only [run_permutation_test]
  split
  · exact ⟨fun _ => rfl, fun hv => absurd rfl hv⟩
  · split
    · exact ⟨fun _ => rfl, fun hv => absurd rfl hv⟩
    · next real hg =>
      split
      · exact ⟨fun _ => rfl, fun hv => absurd rfl hv⟩
      · next h2 =>
        simp only [List.isEmpty_iff] at h2 ⊢
        refine ⟨fun h0 => absurd (List.length_eq_zero.mp h0) h2, fun _ => ?_⟩
        refine ⟨real, _, rfl, rfl, rfl, by positivity, ?_⟩
        rw [div_le_one (by exact_mod_cast List.length_pos.mpr h2)]
        exact_mod_cast List.countP_le_length _

/-- Witness for C4: a concrete run with one valid permutation reaches the
non-`None` branch with `p_value = count/valid ∈ [0, 1]`. -/
theorem run_permutation_test_p_value_witness :
    ∃ r q, (run_permutation_test gsW pmW dataW retRW 0 1 1).real_score = some r ∧
      (run_permutation_test gsW pmW dataW retRW 0 1 1).p_value = some q ∧
      q = (((run_permutation_test gsW pmW dataW retRW 0 1 1).permuted_scores.countP
            (fun x => x ≥ r) : ℕ) : ℚ)
          / (((run_permutation_test gsW pmW dataW retRW 0 1 1).valid_runs : ℕ) : ℚ) ∧
      0 ≤ q ∧ q ≤ 1 :=
  (run_permutation_test_p_value gsW pmW dataW retRW 0 1 1).2
    (of_decide_eq_true (by with_unfolding_all rfl))

lemma excess_nonneg (weights : List (Symb × ℚ)) (cap : ℚ) :
    0 ≤ (weights.filterMap
      (fun p => if p.2 > cap then some (p.2 - cap) else none)).sum := by
  refine List.sum_nonneg ?_
  intro x hx
  rcases List.mem_filterMap.mp hx with ⟨p, _, hsome⟩
  by_cases h : p.2 > cap
  · rw [if_pos h] at hsome
    cases hsome
    exact sub_nonneg.mpr (le_of_lt h)
  · rw [if_neg h] at hsome
    cases hsome

lemma renorm_sum_one (redis : List (Symb × ℚ))
    (h : 0 < (redis.map Prod.snd).sum) :
    ((if (redis.map Prod.snd).sum > 0 then
        redis.map (fun p => (p.1, p.2 / (redis.map Prod.snd).sum))
      else redis).map Prod.snd).sum = 1 := by
  rw [if_pos h, sum_snd_map_div, div_self (ne_of_gt h)]

lemma apply_weight_caps_sum_one (weights : List (Symb × ℚ)) (cap : ℚ)
    (hne : weights ≠ [])
    (hpos : 0 < ((weights.map (fun p => if p.2 > cap then (p.1, cap) else p)).map
      Prod.snd).sum) :
    ((apply_weight_caps weights cap).map Prod.snd).sum = 1 := by
  have hne' : ¬ (weights.isEmpty = true) := by simpa [List.isEmpty_iff] using hne
  have hexc := excess_nonneg weights cap
  simp only [apply_weight_caps, if_neg hne']
  apply renorm_sum_one
  split_ifs with hA hB hC <;>
    first
      | exact hpos
      | (rw [sum_snd_redistribute, div_self (ne_of_gt hC), mul_one]
         exact lt_of_lt_of_le hpos (le_add_of_nonneg_right hexc))

/-- Claim C10: whenever the input mapping is non-empty and the post-clipping
total is positive, `apply_weight_caps` returns weights summing to exactly 1:
the final proportional renormalization restores the full sum (even when every
input weight exceeds the cap and the clipped excess cannot be redistributed). -/
theorem apply_weight_caps_renormalizes (weights : List (Symb × ℚ)) (cap : ℚ)
    (hne : weights ≠ [])
    (hpos : 0 < ((weights.map (fun p => if p.2 > cap then (p.1, cap) else p)).map
      Prod.snd).sum) :
    ((apply_weight_caps weights cap).map Prod.snd).sum = 1 :=
  apply_weight_caps_sum_one weights cap hne hpos

/-- Witness for C10: both weights of `{A: 0.6, B: 0.4}` exceed the cap `1/4`;
the clipped total is `1/2 > 0` and the output sums to exactly 1. -/
theorem apply_weight_caps_renormalizes_witness :
    ((apply_weight_caps [("A", 3/5), ("B", 2/5)] (1/4)).map Prod.snd).sum = 1 :=
  apply_weight_caps_renormalizes [("A", 3/5), ("B", 2/5)] (1/4)
    (by decide) (of_decide_eq_true (by with_unfolding_all rfl))

lemma renorm_entry_bounds (redis : List (Symb × ℚ))
    (hpos : ∀ p ∈ redis, 0 ≤ p.2) :
    ∀ p ∈ (if (redis.map Prod.snd).sum > 0 then
        redis.map (fun p => (p.1, p.2 / (redis.map Prod.snd).sum))
      else redis), 0 ≤ p.2 ∧ p.2 ≤ 1 := by
  intro p hp
  have hnn : ∀ x ∈ redis.map Prod.snd, (0:ℚ) ≤ x := by
    intro x hx
    rcases List.mem_map.mp hx with ⟨q, hq, rfl⟩
    exact hpos q hq
  by_cases h : (redis.map Prod.snd).sum > 0
  · rw [if_pos h] at hp
    rcases List.mem_map.mp hp with ⟨q, hq, rfl⟩
    refine ⟨div_nonneg (hpos q hq) (le_of_lt h), ?_⟩
    rw [div_le_one h]
    exact List.single_le_sum hnn _ (List.mem_map_of_mem _ hq)
  · rw [if_neg h] at hp
    have hps : p.2 ≤ (redis.map Prod.snd).sum :=
      List.single_le_sum hnn _ (List.mem_map_of_mem _ hp)
    have h0 : p.2 = 0 :=
      le_antisymm (le_trans hps (not_lt.mp h)) (hpos p hp)
    exact ⟨hpos p hp, h0 ▸ zero_le_one⟩

/-- Claim C5, amended: for a positive cap and nonnegative input weights,
every output weight of `apply_weight_caps` lies in `[0, 1]`; the per-asset
bound `weight ≤ max_weight_per_asset + 0.01` itself fails (see the
counterexample), since single-pass redistribution and the final
renormalization can push weights far above the cap. -/
theorem apply_weight_caps_entry_bounds (weights : List (Symb × ℚ)) (cap : ℚ)
    (hcap : 0 < cap) (hw : ∀ p ∈ weights, 0 ≤ p.2) :
    ∀ p ∈ apply_weight_caps weights cap, 0 ≤ p.2 ∧ p.2 ≤ 1 := by
  by_cases hne : weights.isEmpty = true
  · intro p hp
    simp [apply_weight_caps, hne] at hp
  · intro p hp
    simp only [apply_weight_caps, if_neg hne] at hp
    refine renorm_entry_bounds _ ?_ p hp
    have hcapped : ∀ q ∈ weights.map
        (fun p => if p.2 > cap then (p.1, cap) else p), 0 ≤ q.2 := by
      intro q hq
      rcases List.mem_map.mp hq with ⟨r, hr, rfl⟩
      by_cases hc : r.2 > cap
      · rw [if_pos hc]
        exact le_of_lt hcap
      · rw [if_neg hc]
        exact hw r hr
    have hexc := excess_nonneg weights cap
    intro q hq
    split_ifs at hq with hA hB hC <;>
      first
        | exact hcapped q hq
        | (rcases List.mem_map.mp hq with ⟨r, hr, rfl⟩
           by_cases hc : r.2 < cap
           · rw [if_pos hc]
             exact add_nonneg (hcapped r hr)
               (mul_nonneg hexc (div_nonneg (hcapped r hr) (le_of_lt hC)))
           · rw [if_neg hc]
             exact hcapped r hr)

/-- Witness for the amended C5: the redistributed weight of B on the
counterexample input, `9/16`, lies in `[0, 1]`. -/
theorem apply_weight_caps_entry_bounds_witness :
    0 ≤ ((9 : ℚ)/16) ∧ ((9 : ℚ)/16) ≤ 1 :=
  apply_weight_caps_entry_bounds [("A", 4/5), ("B", 3/20), ("C", 1/20)] (1/4)
    (of_decide_eq_true (by with_unfolding_all rfl))
    (of_decide_eq_true (by with_unfolding_all rfl))
    ("B", 9/16)
    (of_decide_eq_true (by with_unfolding_all rfl))

lemma inverse_vol_entry_none_iff (O : NumOracle) (R : RetDF) (vw : ℕ) (s : Symb) :
    inverse_vol_entry O R vw s = none ↔ ¬ survives_spec O R vw s := by
  unfold inverse_vol_entry survives_spec
  by_cases hc : s ∈ R.cols
  · by_cases hl : (R.rows.filterMap (fun r => r.2 s)).length < vw
    · simp only [if_pos hc, if_pos hl]
      exact iff_of_true (by trivial) (fun h => absurd h.2.1 (not_le.mpr hl))
    · simp only [if_pos hc, if_neg hl]
      cases hst : O.stdevLast vw (R.rows.filterMap (fun r => r.2 s)) with
      | none =>
        refine iff_of_true (by simp) (fun h => ?_)
        rcases h.2.2 with ⟨v, hv, _⟩
        exact Option.noConfusion hv
      | some v =>
        by_cases hv : v ≤ 0
        · refine iff_of_true (by simp [hv]) (fun h => ?_)
          rcases h.2.2 with ⟨v', hv', hpos⟩
          cases hv'
          exact absurd hpos (not_lt.mpr hv)
        · exact iff_of_false (by simp [hv])
            (fun hns => hns ⟨hc, not_lt.mp hl, v, rfl, lt_of_not_ge hv⟩)
  · simp only [if_neg hc]
    exact iff_of_true (by trivial) (fun h => hc h.1)

lemma inverse_vol_entry_pos (O : NumOracle) (R : RetDF) (vw : ℕ) (s : Symb)
    (p : Symb × ℚ) (h : inverse_vol_entry O R vw s = some p) : 0 < p.2 := by
  simp only [inverse_vol_entry] at h
  split_ifs at h with hc hl <;>
    first
      | exact Option.noConfusion h
      | (cases hst : O.stdevLast vw (R.rows.filterMap (fun r => r.2 s)) with
          | none =>
            simp only [hst] at h
            exact Option.noConfusion h
          | some v =>
            simp only [hst] at h
            split_ifs at h with hv
            cases h
            exact one_div_pos.mpr (lt_of_not_ge hv))

lemma calculate_inverse_vol_weights_spec (O : NumOracle) (sel : List Symb)
    (R : RetDF) (vw : ℕ) :
    (calculate_inverse_vol_weights O sel R vw = [] ↔
      ∀ s ∈ sel, ¬ survives_spec O R vw s) ∧
    (∀ p ∈ calculate_inverse_vol_weights O sel R vw, 0 < p.2) ∧
    (calculate_inverse_vol_weights O sel R vw ≠ [] →
      ((calculate_inverse_vol_weights O sel R vw).map Prod.snd).sum = 1) := by
  by_cases hsel : sel.isEmpty = true
  · have hsel' := List.isEmpty_iff.mp hsel
    subst hsel'
    simp [calculate_inverse_vol_weights]
  · have hmem : ∀ p ∈ sel.filterMap (inverse_vol_entry O R vw), 0 < p.2 := by
      intro p hp
      rcases List.mem_filterMap.mp hp with ⟨s, _, hs⟩
      exact inverse_vol_entry_pos O R vw s p hs
    by_cases hiv : (sel.filterMap (inverse_vol_entry O R vw)).isEmpty = true
    · have hiv' := List.isEmpty_iff.mp hiv
      simp only [calculate_inverse_vol_weights, if_neg hsel, hiv', if_pos rfl,
        List.isEmpty_nil]
      refine ⟨iff_of_true rfl ?_, fun p hp => absurd hp (List.not_mem_nil p),
        fun h => absurd rfl h⟩
      intro s hs
      rw [← inverse_vol_entry_none_iff]
      exact (List.filterMap_eq_nil_iff.mp hiv') s hs
    · have hiv' : sel.filterMap (inverse_vol_entry O R vw) ≠ [] := by
        simpa [List.isEmpty_iff] using hiv
      have hsumpos : 0 <
          ((sel.filterMap (inverse_vol_entry O R vw)).map Prod.snd).sum := by
        refine List.sum_pos _ ?_ ?_
        · intro x hx
          rcases List.mem_map.mp hx with ⟨q, hq, rfl⟩
          exact hmem q hq
        · simpa using hiv'
      have hsumne : ((sel.filterMap (inverse_vol_entry O R vw)).map Prod.snd).sum ≠ 0 :=
        ne_of_gt hsumpos
      simp only [calculate_inverse_vol_weights, if_neg hsel, if_neg hiv,
        if_neg hsumne]
      refine ⟨?_, ?_, fun _ => ?_⟩
      · refine iff_of_false ?_ ?_
        · intro hmap
          exact hiv' (List.map_eq_nil.mp hmap)
        · intro hall
          rcases List.exists_mem_of_ne_nil _ hiv' with ⟨p, hp⟩
          rcases List.mem_filterMap.mp hp with ⟨s, hs, hsome⟩
          have := (inverse_vol_entry_none_iff O R vw s).mpr (hall s hs)
          rw [this] at hsome
          exact Option.noConfusion hsome
      · intro p hp
        rcases List.mem_map.mp hp with ⟨q, hq, rfl⟩
        exact div_pos (hmem q hq) hsumpos
      · rw [sum_snd_map_div, div_self hsumne]

lemma apply_weight_caps_length (weights : List (Symb × ℚ)) (cap : ℚ) :
    (apply_weight_caps weights cap).length = weights.length := by
  by_cases hne : weights.isEmpty = true
  · rw [List.isEmpty_iff.mp hne]
    simp [apply_weight_caps]
  · simp only [apply_weight_caps, if_neg hne]
    split_ifs <;> simp

lemma apply_cash_buffer_length (weights : List (Symb × ℚ)) (cb : ℚ) :
    (apply_cash_buffer weights cb).length = weights.length := by
  by_cases hne : weights.isEmpty = true
  · rw [List.isEmpty_iff.mp hne]
    simp [apply_cash_buffer]
  · simp only [apply_cash_buffer, if_neg hne]
    simp

lemma apply_cash_buffer_sum (weights : List (Symb × ℚ)) (cb : ℚ) :
    ((apply_cash_buffer weights cb).map Prod.snd).sum
      = ((weights.map Prod.snd).sum) * (1 - cb) := by
  by_cases hne : weights.isEmpty = true
  · rw [List.isEmpty_iff.mp hne]
    simp [apply_cash_buffer]
  · simp only [apply_cash_buffer, if_neg hne]
    exact sum_snd_map_mul weights (1 - cb)

lemma clipped_sum_pos (w1 : List (Symb × ℚ)) (cap : ℚ) (hcap : 0 < cap)
    (hne : w1 ≠ []) (hpos : ∀ p ∈ w1, 0 < p.2) :
    0 < ((w1.map (fun p => if p.2 > cap then (p.1, cap) else p)).map Prod.snd).sum := by
  refine List.sum_pos _ ?_ ?_
  · intro x hx
    rcases List.mem_map.mp hx with ⟨q, hq, rfl⟩
    rcases List.mem_map.mp hq with ⟨r, hr, rfl⟩
    by_cases hc : r.2 > cap
    · rw [if_pos hc]
      exact hcap
    · rw [if_neg hc]
      exact hpos r hr
  · simp [hne]

/-- Claim C6, amended (requires `max_weight_per_asset > 0`; the counterexample
shows the invariant fails for a non-positive cap): `calculate_weights`
returns the empty mapping exactly when no selected symbol survives the
inverse-volatility stage (missing column, fewer than `vol_window`
observations, or non-positive/NaN volatility), and every non-empty result
sums to within `0.01` of `1 - cash_buffer`. -/
theorem calculate_weights_sum_spec (O : NumOracle) (sel : List Symb)
    (R : RetDF) (cfg : AppConfig)
    (hcap : 0 < cfg.weights.max_weight_per_asset) :
    (calculate_weights O sel R cfg = [] ↔
      ∀ s ∈ sel, ¬ survives_spec O R cfg.weights.vol_window s) ∧
    (calculate_weights O sel R cfg ≠ [] →
      |((calculate_weights O sel R cfg).map Prod.snd).sum
        - (1 - cfg.weights.cash_buffer)| ≤ 1/100) := by
  obtain ⟨hiff, hpos, hsum⟩ :=
    calculate_inverse_vol_weights_spec O sel R cfg.weights.vol_window
  by_cases hsel : sel.isEmpty = true
  · have hsel' := List.isEmpty_iff.mp hsel
    subst hsel'
    simp [calculate_weights]
  · by_cases h1 : (calculate_inverse_vol_weights O sel R
        cfg.weights.vol_window).isEmpty = true
    · simp only [calculate_weights, if_neg hsel, if_pos h1]
      refine ⟨iff_of_true (by trivial) (hiff.mp (List.isEmpty_iff.mp h1)),
        fun h => absurd (by trivial) h⟩
    · have h1' : calculate_inverse_vol_weights O sel R cfg.weights.vol_window ≠ [] := by
        simpa [List.isEmpty_iff] using h1
      have hs1 := hsum h1'
      have hw2sum : ((apply_weight_caps
          (calculate_inverse_vol_weights O sel R cfg.weights.vol_window)
          cfg.weights.max_weight_per_asset).map Prod.snd).sum = 1 :=
        apply_weight_caps_sum_one _ _ h1'
          (by
            refine lt_of_lt_of_eq (clipped_sum_pos _ _ hcap h1' hpos) rfl)
      have hw3sum : ((apply_cash_buffer (apply_weight_caps
          (calculate_inverse_vol_weights O sel R cfg.weights.vol_window)
          cfg.weights.max_weight_per_asset) cfg.weights.cash_buffer).map
            Prod.snd).sum = 1 - cfg.weights.cash_buffer := by
        rw [apply_cash_buffer_sum, hw2sum, one_mul]
      have hw3ne : apply_cash_buffer (apply_weight_caps
          (calculate_inverse_vol_weights O sel R cfg.weights.vol_window)
          cfg.weights.max_weight_per_asset) cfg.weights.cash_buffer ≠ [] := by
        intro hnil
        apply h1'
        have := apply_cash_buffer_length (apply_weight_caps
          (calculate_inverse_vol_weights O sel R cfg.weights.vol_window)
          cfg.weights.max_weight_per_asset) cfg.weights.cash_buffer
        rw [hnil] at this
        have h2 := apply_weight_caps_length
          (calculate_inverse_vol_weights O sel R cfg.weights.vol_window)
          cfg.weights.max_weight_per_asset
        rw [← this] at h2
        exact List.length_eq_zero.mp h2.symm
      have hcond : ¬ (|((apply_cash_buffer (apply_weight_caps
          (calculate_inverse_vol_weights O sel R cfg.weights.vol_window)
          cfg.weights.max_weight_per_asset) cfg.weights.cash_buffer).map
            Prod.snd).sum - (1 - cfg.weights.cash_buffer)| > 1/100) := by
        rw [hw3sum, sub_self, abs_zero]
        norm_num
      simp only [calculate_weights, if_neg hsel, if_neg h1, if_neg hcond]
      constructor
      · refine iff_of_false hw3ne ?_
        intro hall
        exact h1' (hiff.mpr hall)
      · intro _
        rw [hw3sum, sub_self, abs_zero]
        norm_num

/-- Witness for the amended C6: with a positive cap (1/2) the same selection
and returns give the non-empty mapping `{A: 19/20}` whose sum is within
`0.01` of `1 - cash_buffer`. -/
theorem calculate_weights_sum_spec_witness :
    |((calculate_weights oracleQ ["A"] retR6 cfg6b).map Prod.snd).sum
      - (1 - cfg6b.weights.cash_buffer)| ≤ 1/100 :=
  (calculate_weights_sum_spec oracleQ ["A"] retR6 cfg6b
      (of_decide_eq_true (by with_unfolding_all rfl))).2
    (of_decide_eq_true (by with_unfolding_all rfl))

lemma cc_foldl_mem (M : CorrMat) (cap : ℚ) :
    ∀ (l acc : List Symb), ∀ x ∈ l.foldl (cc_step M cap) acc, x ∈ acc ∨ x ∈ l := by
  intro l
  induction l with
  | nil =>
    intro acc x hx
    exact Or.inl hx
  | cons y ys ih =>
    intro acc x hx
    rcases ih (cc_step M cap acc y) x hx with h | h
    · unfold cc_step at h
      split_ifs at h
      · rcases List.mem_append.mp h with h' | h'
        · exact Or.inl h'
        · exact Or.inr (by simp [List.mem_singleton.mp h'])
      · exact Or.inl h
    · exact Or.inr (List.mem_cons_of_mem y h)

lemma cc_foldl_pairwise (M : CorrMat) (cap : ℚ) :
    ∀ (l acc : List Symb),
      acc.Pairwise (fun x y => cc_reject M cap y x = false) →
      (l.foldl (cc_step M cap) acc).Pairwise
        (fun x y => cc_reject M cap y x = false) := by
  intro l
  induction l with
  | nil =>
    intro acc h
    exact h
  | cons y ys ih =>
    intro acc h
    refine ih _ ?_
    unfold cc_step
    split_ifs with hall
    · rw [List.pairwise_append]
      refine ⟨h, List.pairwise_singleton _ _, ?_⟩
      intro x hx z hz
      rw [List.mem_singleton.mp hz]
      have hx' := List.all_eq_true.mp hall x hx
      simpa using hx'
    · exact h

lemma cc_reject_false_bound (M : CorrMat) (cap : ℚ) (a b : Symb)
    (haM : a ∈ M.syms) (hbM : b ∈ M.syms)
    (hsome : (M.entry a b).isSome) (h : cc_reject M cap a b = false) :
    ∃ q, M.entry a b = some q ∧ |q| ≤ cap := by
  unfold cc_reject cc_lookup at h
  rw [if_pos ⟨haM, hbM⟩] at h
  rcases Option.isSome_iff_exists.mp hsome with ⟨q, hq⟩
  rw [hq] at h
  have h' : decide (|q| > cap) = false := by simpa using h
  exact ⟨q, hq, not_lt.mp (of_decide_eq_false h')⟩

/-- Claim C7: greedy selection under a correlation cap.  Universally: for a
non-empty correlation matrix containing every candidate, with defined and
symmetric entries, every pair of distinct symbols admitted by
`apply_correlation_cap` has `|corr| ≤ corr_cap`.  Concretely: with scores
`{A: 1, B: 0.9, C: 0.8}`, `corr(A,B)=0.95`, `corr(A,C)=0.2`, `corr(B,C)=0.3`
and cap `0.7`, the greedy selection is `[A, C]` with `B` rejected. -/
theorem apply_correlation_cap_invariant :
    (∀ (symbols : List Symb) (scores : List (Symb × ℚ)) (M : CorrMat) (cap : ℚ),
      M.syms ≠ [] →
      (∀ s ∈ symbols, s ∈ M.syms) →
      (∀ a ∈ M.syms, ∀ b ∈ M.syms, (M.entry a b).isSome) →
      (∀ a ∈ M.syms, ∀ b ∈ M.syms, M.entry a b = M.entry b a) →
      ∀ a ∈ apply_correlation_cap symbols scores M cap,
        ∀ b ∈ apply_correlation_cap symbols scores M cap, a ≠ b →
          ∃ q, M.entry a b = some q ∧ |q| ≤ cap) ∧
    apply_correlation_cap ["A", "B", "C"]
      [("A", 1), ("B", 9/10), ("C", 4/5)] mCx (7/10) = ["A", "C"] := by
  constructor
  · intro symbols scores M cap hM hall hsome hsym a ha b hb hne
    cases symbols with
    | nil => simp [apply_correlation_cap] at ha
    | cons s0 rest =>
      have hM' : ¬ (M.syms.isEmpty = true) := by simpa [List.isEmpty_iff] using hM
      simp only [apply_correlation_cap, if_neg hM'] at ha hb
      have hsub := cc_foldl_mem M cap (s0 :: rest) []
      have haM : a ∈ M.syms := hall a ((hsub a ha).resolve_left (List.not_mem_nil a))
      have hbM : b ∈ M.syms := hall b ((hsub b hb).resolve_left (List.not_mem_nil b))
      have hpw := cc_foldl_pairwise M cap (s0 :: rest) [] List.Pairwise.nil
      have hpw2 : ((s0 :: rest).foldl (cc_step M cap) []).Pairwise
          (fun x y => cc_reject M cap y x = false ∨ cc_reject M cap x y = false) :=
        hpw.imp (fun h => Or.inl h)
      have hS : Symmetric (fun x y : Symb =>
          cc_reject M cap y x = false ∨ cc_reject M cap x y = false) :=
        fun x y h => h.symm
      rcases hpw2.forall hS ha hb hne with h | h
      · rcases cc_reject_false_bound M cap b a hbM haM (hsome b hbM a haM) h with
          ⟨q, hq, hle⟩
        exact ⟨q, by rw [hsym a haM b hbM]; exact hq, hle⟩
      · exact cc_reject_false_bound M cap a b haM hbM (hsome a haM b hbM) h
  · exact of_decide_eq_true (by with_unfolding_all rfl)

/-- Witness for C7: instantiating the invariant on the spec scenario yields
`|corr(A,C)| = 0.2 ≤ 0.7` for the admitted pair. -/
theorem apply_correlation_cap_invariant_witness :
    ∃ q, mCx.entry "A" "C" = some q ∧ |q| ≤ 7/10 :=
  apply_correlation_cap_invariant.1 ["A", "B", "C"]
    [("A", 1), ("B", 9/10), ("C", 4/5)] mCx (7/10)
    (by decide)
    (of_decide_eq_true (by with_unfolding_all rfl))
    (of_decide_eq_true (by with_unfolding_all rfl))
    (of_decide_eq_true (by with_unfolding_all rfl))
    "A" (of_decide_eq_true (by with_unfolding_all rfl))
    "C" (of_decide_eq_true (by with_unfolding_all rfl))
    (by decide)

/-- Claim C8, amended: with fewer than `corr_window` observations up to the
evaluation date (empty correlation matrix), `select_with_correlation_cap`
falls back to the top `min(top_n, #scores)` symbols in descending-score
order — not to the single top-scoring symbol (see the counterexample). -/
theorem select_with_correlation_cap_insufficient
    (O : NumOracle) (scores : List (Symb × ℚ)) (R : RetDF)
    (top_n corr_window : ℕ) (cap : ℚ) (t : ℤ)
    (hs : scores ≠ [])
    (hlen : (R.rows.filter (fun r => r.1 ≤ t)).length < corr_window) :
    select_with_correlation_cap O scores R top_n corr_window cap (some t)
      = ((sort_scores_desc scores).map Prod.fst).take top_n := by
  have hs' : ¬ (scores.isEmpty = true) := by simpa [List.isEmpty_iff] using hs
  have hM : (get_correlation_matrix O R corr_window (some t)).syms = [] := by
    unfold get_correlation_matrix
    by_cases hre : R.isEmpty = true
    · rw [if_pos hre]
      rfl
    · rw [if_neg hre]
      simp only [if_pos hlen]
      rfl
  simp only [select_with_correlation_cap, if_neg hs', hM]
  simp

/-- Witness for the amended C8: two scored symbols with no history at all
give back both symbols in score order. -/
theorem select_with_correlation_cap_insufficient_witness :
    select_with_correlation_cap oracleQ [("A", 1), ("B", 9/10)] retRcx 2 90
        (7/10) (some 0)
      = ((sort_scores_desc [("A", 1), ("B", 9/10)]).map Prod.fst).take 2 :=
  select_with_correlation_cap_insufficient oracleQ [("A", 1), ("B", 9/10)]
    retRcx 2 90 (7/10) 0
    (of_decide_eq_true (by with_unfolding_all rfl))
    (by decide)

lemma genWindows_mem (ty om : ℕ) (e : ℤ) :
    ∀ (fuel : ℕ) (cur : ℤ), ∀ w ∈ genWindows ty om e fuel cur,
      cur ≤ w.1 ∧ w.2.1 = w.1 + 365 * (ty : ℤ) ∧ w.2.2.1 = w.2.1 ∧
      w.2.2.1 < w.2.2.2 ∧ w.2.2.2 ≤ w.2.2.1 + 30 * (om : ℤ) := by
  intro fuel
  induction fuel with
  | zero =>
    intro cur w hw
    simp [genWindows] at hw
  | succ f ih =>
    intro cur w hw
    simp only [genWindows] at hw
    split_ifs at hw with h1 h2 h3 h4 h5
    all_goals
      first
        | exact absurd hw (List.not_mem_nil w)
        | (rcases List.mem_cons.mp hw with rfl | hw'
           · exact ⟨le_refl _, rfl, rfl, by dsimp only; omega, by dsimp only; omega⟩
           · obtain ⟨ha, hb, hc, hd, he⟩ := ih _ w hw'
             exact ⟨by omega, hb, hc, hd, he⟩)

lemma genWindows_pairwise (ty om : ℕ) (e : ℤ) (hty : 1 ≤ ty) :
    ∀ (fuel : ℕ) (cur : ℤ),
      (genWindows ty om e fuel cur).Pairwise
        (fun w w' => w.1 < w'.1 ∧
          (30 * (om : ℤ) ≤ 365 * (ty : ℤ) → w.2.2.2 ≤ w'.2.2.1)) := by
  intro fuel
  induction fuel with
  | zero =>
    intro cur
    simp [genWindows]
  | succ f ih =>
    intro cur
    simp only [genWindows]
    split_ifs with h1 h2 h3 h4 h5
    all_goals
      first
        | exact List.Pairwise.nil
        | (refine List.Pairwise.cons ?_ (ih _)
           intro w' hw'
           obtain ⟨ha, hb, hc, hd, he⟩ := genWindows_mem ty om e f _ w' hw'
           refine ⟨by dsimp only; omega, fun hno => by dsimp only; omega⟩)

/-- Claim C9, amended: every generated walk-forward window satisfies
`train_start < train_end = oos_start < oos_end`, windows are chronological,
and — PROVIDED `30·oos_months ≤ 365·train_years` (consecutive OOS starts
advance by `365·train_years` days, so longer OOS lengths overlap, see the
counterexample) — no two windows' OOS ranges overlap; a 4-year span with
`train_years = 3`, `oos_months = 3` yields exactly one window. -/
theorem generate_walkforward_windows_props (s e : ℤ) (ty om : ℕ)
    (hty : 1 ≤ ty) (hom : 1 ≤ om) :
    (∀ w ∈ generate_walkforward_windows s e ty om,
      w.1 < w.2.1 ∧ w.2.1 = w.2.2.1 ∧ w.2.2.1 < w.2.2.2) ∧
    (generate_walkforward_windows s e ty om).Pairwise (fun w w' => w.1 < w'.1) ∧
    (30 * (om : ℤ) ≤ 365 * (ty : ℤ) →
      (generate_walkforward_windows s e ty om).Pairwise
        (fun w w' => w.2.2.2 ≤ w'.2.2.1)) ∧
    generate_walkforward_windows 0 1460 3 3 = [(0, 1095, 1095, 1185)] := by
  have hom' : 0 < om := hom
  refine ⟨?_, ?_, ?_, by decide⟩
  · intro w hw
    obtain ⟨_, hb, hc, hd, _⟩ :=
      genWindows_mem ty om e ((e - s).toNat + 1) s w hw
    refine ⟨?_, hc.symm, hd⟩
    omega
  · exact (genWindows_pairwise ty om e hty ((e - s).toNat + 1) s).imp
      (fun h => h.1)
  · intro hno
    exact (genWindows_pairwise ty om e hty ((e - s).toNat + 1) s).imp
      (fun h => h.2 hno)

/-- Witness for the amended C9: the single window of the 4-year scenario
respects `train_start < train_end = oos_start < oos_end`. -/
theorem generate_walkforward_windows_props_witness :
    (0 : ℤ) < 1095 ∧ (1095 : ℤ) = 1095 ∧ (1095 : ℤ) < 1185 :=
  (generate_walkforward_windows_props 0 1460 3 3 (by decide) (by decide)).1
    (0, 1095, 1095, 1185) (by decide)
